import Mathlib

/-!
Verification of the singly linked list (`docs/linked-list/code/singly.rs`).

Shallow embedding of the Rust singly linked list.  A `Node` chain
(`Option<Box<Node>>`) is a finite, acyclic sequence of `i32` payloads, so a
list handle is modelled as `List Int` (absence = `[]`).  Operations that can
`panic!` return `Option` (`none` = panic, no result is produced).  Operations
that may `println!` a diagnostic return the new handle together with the list
of emitted diagnostic lines.  `print_list` is modelled as the text it writes
to stdout (the content of the produced line, without the terminating newline
added by `println!`).  The stateful visitor of `traverse_apply`
(Rust `FnMut(&mut i32)`) is modelled as an explicit state-passing function
`σ → Int → Int × σ` returning the updated payload and updated closure state.
-/

set_option autoImplicit false

namespace Node

/-- `Node::new(data)`: a fresh single node with absent successor. -/
def new (data : Int) : List Int := [data]

/-- `Node::get(head, index)`: walk the chain counting up from 0 and return the
node at `index`, or `None` when the chain ends first.  The borrowed node is
modelled as the suffix of the list starting at `index` (its `data` is the head
of that suffix, its `next` the tail). -/
def get : List Int → Nat → Option (List Int)
  | [], _ => none
  | d :: rest, 0 => some (d :: rest)
  | _ :: rest, i + 1 => get rest i

/-- The element chunk of `Node::print_list`: each node prints its `data`,
followed by `" -> "` exactly when `next` is present. -/
def printNodes : List Int → String
  | [] => ""
  | [d] => toString d
  | d :: rest => toString d ++ " -> " ++ printNodes rest

/-- `Node::print_list(head)`: `print!("HEAD -> ")`, then the per-node chunks,
then `println!(" -> NONE")`. -/
def print_list (head : List Int) : String :=
  "HEAD -> " ++ printNodes head ++ " -> NONE"

/-- `Node::traverse_apply(head, func)`: apply the (stateful) visitor to each
payload in head-to-tail order; returns the list of updated payloads and the
final visitor state. -/
def traverse_apply {σ : Type} (func : σ → Int → Int × σ) :
    List Int → σ → List Int × σ
  | [], s => ([], s)
  | d :: rest, s =>
    let r := func s d
    let t := traverse_apply func rest r.2
    (r.1 :: t.1, t.2)

/-- `Node::insert_at_head(head, data)`: new node holding `data` whose
successor is the old head. -/
def insert_at_head (head : List Int) (data : Int) : List Int :=
  data :: head

/-- `Node::insert_at_tail(head, data)`: if empty, a fresh node; otherwise walk
to the last node and hang a fresh node after it. -/
def insert_at_tail : List Int → Int → List Int
  | [], data => new data
  | d :: rest, data => d :: insert_at_tail rest data

/-- The loop of `Node::insert_at_index` on a non-empty chain: advance `k`
steps from the current node, panicking (`none`) when `next` is absent before
a step, then splice a fresh node between the current node and its successor. -/
def insertAfter (data : Int) : List Int → Nat → Option (List Int)
  | [], _ => none
  | d :: rest, 0 => some (d :: data :: rest)
  | [_], _ + 1 => none
  | d :: e :: rest, k + 1 => (insertAfter data (e :: rest) k).map (d :: ·)

/-- `Node::insert_at_index(head, data, index)`: on the empty list only index 0
is allowed (otherwise `panic!("Index out of bounds")`); index 0 prepends;
otherwise run the loop `index - 1` steps and splice after the reached node. -/
def insert_at_index (head : List Int) (data : Int) (index : Nat) :
    Option (List Int) :=
  match head with
  | [] => if index = 0 then some (new data) else none
  | d :: rest =>
    match index with
    | 0 => some (data :: d :: rest)
    | j + 1 => insertAfter data (d :: rest) j

/-- `Node::delete_at_head(head)`: on the empty list, print `"List is empty"`
and return the empty handle; otherwise drop the first node. -/
def delete_at_head : List Int → List Int × List String
  | [] => ([], ["List is empty"])
  | _ :: rest => (rest, [])

/-- `Node::delete_at_tail(head)`: empty list prints `"List is empty"`; a
singleton delegates to `delete_at_head`; otherwise walk to the second-to-last
node and cut off its successor. -/
def delete_at_tail : List Int → List Int × List String
  | [] => ([], ["List is empty"])
  | [d] => delete_at_head [d]
  | d :: e :: rest => (d :: (delete_at_tail (e :: rest)).1, [])

/-- The loop of `Node::delete_at_index` on a non-empty chain: advance `k`
steps (panicking when `next` is absent before a step), panic if the reached
node has no successor, and otherwise unlink that successor. -/
def deleteAfter : List Int → Nat → Option (List Int)
  | [], _ => none
  | [_], _ => none
  | d :: _ :: rest, 0 => some (d :: rest)
  | d :: e :: rest, k + 1 => (deleteAfter (e :: rest) k).map (d :: ·)

/-- `Node::delete_at_index(head, index)`: empty list prints `"List is empty"`
and returns the empty handle for any index; index 0 delegates to
`delete_at_head`; otherwise run the loop `index - 1` steps and unlink the
successor of the reached node. -/
def delete_at_index (head : List Int) (index : Nat) :
    Option (List Int × List String) :=
  match head with
  | [] => some ([], ["List is empty"])
  | d :: rest =>
    match index with
    | 0 => some (delete_at_head (d :: rest))
    | j + 1 => (deleteAfter (d :: rest) j).map (fun l => (l, []))

/-- The loop of `Node::reverse`: pop each node off `curr` and push it onto
`prev`, reversing every link in place. -/
def reverseGo : List Int → List Int → List Int
  | prev, [] => prev
  | prev, d :: rest => reverseGo (d :: prev) rest

/-- `Node::reverse(head)`: run the relinking loop starting from an absent
`prev`. -/
def reverse (head : List Int) : List Int :=
  reverseGo [] head

end Node

/-- Rendering described by the spec for `print`: the elements left-to-right,
separated by `" -> "` (empty text for the empty list). -/
def specRender : List Int → String
  | [] => ""
  | [d] => toString d
  | d :: rest => toString d ++ " -> " ++ specRender rest

/-- The closure state after visiting a prefix of payloads in head-to-tail
order. -/
def applyState {σ : Type} (func : σ → Int → Int × σ) (s : σ)
    (xs : List Int) : σ :=
  xs.foldl (fun t d => (func t d).2) s

/-! ### Basic facts about the embedded operations -/

theorem insert_at_tail_eq (L : List Int) (v : Int) :
    Node.insert_at_tail L v = L ++ [v] := by
  induction L with
  | nil => rfl
  | cons d rest ih => simp [Node.insert_at_tail, ih]

theorem reverseGo_eq (L : List Int) :
    ∀ prev : List Int, Node.reverseGo prev L = L.reverse ++ prev := by
  induction L with
  | nil => intro prev; simp [Node.reverseGo]
  | cons d rest ih => intro prev; simp [Node.reverseGo, ih]

theorem reverse_eq (L : List Int) : Node.reverse L = L.reverse := by
  simp [Node.reverse, reverseGo_eq]

theorem insertAfter_lt (v : Int) (L : List Int) :
    ∀ k : Nat, k < L.length →
      Node.insertAfter v L k = some (L.take (k + 1) ++ v :: L.drop (k + 1)) := by
  induction L with
  | nil => intro k h; simp at h
  | cons d rest ih =>
    intro k h
    cases k with
    | zero => simp [Node.insertAfter]
    | succ k =>
      cases rest with
      | nil => simp at h
      | cons e rest2 =>
        have hk : k < (e :: rest2).length := by
          simpa [Nat.succ_lt_succ_iff] using h
        simp [Node.insertAfter, ih k hk]

theorem insertAfter_ge (v : Int) (L : List Int) :
    ∀ k : Nat, L.length ≤ k → Node.insertAfter v L k = none := by
  induction L with
  | nil => intro k _; rfl
  | cons d rest ih =>
    intro k h
    cases k with
    | zero => simp at h
    | succ k =>
      cases rest with
      | nil => rfl
      | cons e rest2 =>
        have hk : (e :: rest2).length ≤ k := by
          simpa [Nat.succ_le_succ_iff] using h
        simp [Node.insertAfter, ih k hk]

theorem insert_at_index_le (L : List Int) (v : Int) (k : Nat)
    (h : k ≤ L.length) :
    Node.insert_at_index L v k = some (L.take k ++ v :: L.drop k) := by
  cases L with
  | nil =>
    have : k = 0 := Nat.le_zero.mp h
    subst this
    rfl
  | cons d rest =>
    cases k with
    | zero => rfl
    | succ j =>
      have hj : j < (d :: rest).length := h
      simp [Node.insert_at_index, insertAfter_lt v (d :: rest) j hj]

theorem insert_at_index_gt (L : List Int) (v : Int) (k : Nat)
    (h : L.length < k) :
    Node.insert_at_index L v k = none := by
  cases L with
  | nil =>
    have : k ≠ 0 := by omega
    simp [Node.insert_at_index, this]
  | cons d rest =>
    cases k with
    | zero => simp at h
    | succ j =>
      have hj : (d :: rest).length ≤ j := by
        simpa [Nat.succ_le_succ_iff] using h
      simp [Node.insert_at_index, insertAfter_ge v (d :: rest) j hj]

theorem deleteAfter_lt (L : List Int) :
    ∀ k : Nat, k + 1 < L.length →
      Node.deleteAfter L k = some (L.take (k + 1) ++ L.drop (k + 2)) := by
  induction L with
  | nil => intro k h; simp at h
  | cons d rest ih =>
    intro k h
    cases rest with
    | nil => simp at h
    | cons e rest2 =>
      cases k with
      | zero => simp [Node.deleteAfter]
      | succ k =>
        have hk : k + 1 < (e :: rest2).length := by
          simpa [Nat.succ_lt_succ_iff] using h
        simp [Node.deleteAfter, ih k hk]

theorem deleteAfter_ge (L : List Int) :
    ∀ k : Nat, L.length ≤ k + 1 → Node.deleteAfter L k = none := by
  induction L with
  | nil => intro k _; rfl
  | cons d rest ih =>
    intro k h
    cases rest with
    | nil => cases k <;> rfl
    | cons e rest2 =>
      cases k with
      | zero => simp at h
      | succ k =>
        have hk : (e :: rest2).length ≤ k + 1 := by
          simpa [Nat.succ_le_succ_iff] using h
        simp [Node.deleteAfter, ih k hk]

theorem delete_at_index_zero (L : List Int) :
    Node.delete_at_index L 0 = some (Node.delete_at_head L) := by
  cases L <;> rfl

theorem delete_at_index_lt (L : List Int) (k : Nat)
    (h0 : 0 < k) (hk : k < L.length) :
    Node.delete_at_index L k = some (L.take k ++ L.drop (k + 1), []) := by
  cases L with
  | nil => simp at hk
  | cons d rest =>
    cases k with
    | zero => simp at h0
    | succ j =>
      simp [Node.delete_at_index, deleteAfter_lt (d :: rest) j hk]

theorem delete_at_index_ge (L : List Int) (k : Nat)
    (hL : L ≠ []) (h : L.length ≤ k) :
    Node.delete_at_index L k = none := by
  cases L with
  | nil => exact absurd rfl hL
  | cons d rest =>
    cases k with
    | zero => simp at h
    | succ j =>
      have hj : (d :: rest).length ≤ j + 1 := h
      simp [Node.delete_at_index, deleteAfter_ge (d :: rest) j hj]

theorem get_eq (L : List Int) :
    ∀ i : Nat, Node.get L i = if i < L.length then some (L.drop i) else none := by
  induction L with
  | nil => intro i; rfl
  | cons d rest ih =>
    intro i
    cases i with
    | zero => simp [Node.get]
    | succ i => simp [Node.get, ih i, Nat.succ_lt_succ_iff]

theorem printNodes_eq (L : List Int) : Node.printNodes L = specRender L := by
  induction L with
  | nil => rfl
  | cons d rest ih =>
    cases rest with
    | nil => rfl
    | cons e rest2 => simp [Node.printNodes, specRender] at ih ⊢; rw [ih]

theorem delete_at_tail_append (L : List Int) (v : Int) :
    Node.delete_at_tail (L ++ [v]) = (L, []) := by
  induction L with
  | nil => rfl
  | cons d rest ih =>
    cases rest with
    | nil => rfl
    | cons e rest2 =>
      simp only [List.cons_append] at ih ⊢
      simp [Node.delete_at_tail, ih]

theorem applyState_cons {σ : Type} (func : σ → Int → Int × σ) (s : σ)
    (d : Int) (xs : List Int) :
    applyState func s (d :: xs) = applyState func (func s d).2 xs := rfl

theorem traverse_apply_parts {σ : Type} (func : σ → Int → Int × σ)
    (L : List Int) : ∀ s : σ,
    (Node.traverse_apply func L s).1.length = L.length ∧
    (Node.traverse_apply func L s).2 = applyState func s L ∧
    ∀ i : Nat, i < L.length →
      ((Node.traverse_apply func L s).1)[i]? =
        (L[i]?).map (fun d => (func (applyState func s (L.take i)) d).1) := by
  induction L with
  | nil =>
    intro s
    refine ⟨rfl, rfl, fun i h => ?_⟩
    simp at h
  | cons d rest ih =>
    intro s
    obtain ⟨ihlen, ihst, ihget⟩ := ih (func s d).2
    refine ⟨?_, ?_, ?_⟩
    · simp [Node.traverse_apply, ihlen]
    · simp [Node.traverse_apply, ihst, applyState_cons]
    · intro i hi
      cases i with
      | zero => simp [Node.traverse_apply, applyState]
      | succ i =>
        have hi2 : i < rest.length := by
          simpa [Nat.succ_lt_succ_iff] using hi
        simp [Node.traverse_apply, ihget i hi2, applyState_cons]

/-! ### The claims -/

/-- Claim C1: for every list `L`, value `v` and index `k` with
`0 ≤ k ≤ length L`, `insert_at_index` succeeds and returns a list of length
`length L + 1` whose element at position `k` is `v`, whose elements before
`k` equal those of `L`, and whose elements after `k` are the elements of `L`
from position `k` on shifted by one; for `k = 0` the result equals
`insert_at_head L v`. -/
theorem c1_insert_at_index_correct (L : List Int) (v : Int) (k : Nat)
    (hk : k ≤ L.length) :
    ∃ R, Node.insert_at_index L v k = some R ∧
      R.length = L.length + 1 ∧
      R[k]? = some v ∧
      (∀ i, i < k → R[i]? = L[i]?) ∧
      (∀ i, k ≤ i → i < L.length → R[i + 1]? = L[i]?) ∧
      (k = 0 → R = Node.insert_at_head L v) := by
  have h1 : (L.take k).length = k := by simp [Nat.min_eq_left hk]
  refine ⟨L.take k ++ v :: L.drop k, insert_at_index_le L v k hk,
    ?_, ?_, ?_, ?_, ?_⟩
  · rw [List.length_append, h1, List.length_cons, List.length_drop]
    omega
  · rw [List.getElem?_append_right (by simp [h1]), h1, Nat.sub_self]
    simp
  · intro i hi
    rw [List.getElem?_append_left (by simpa [h1] using hi)]
    exact List.getElem?_take_of_lt hi
  · intro i hki hi
    rw [List.getElem?_append_right (by simpa [h1] using Nat.le_succ_of_le hki),
      h1]
    have h2 : i + 1 - k = (i - k) + 1 := by omega
    rw [h2, List.getElem?_cons_succ, List.getElem?_drop]
    congr 1
    omega
  · intro h
    subst h
    simp [Node.insert_at_head]

theorem c1_witness :
    2 ≤ ([5, 6, 7] : List Int).length ∧
    ∃ R, Node.insert_at_index [5, 6, 7] 9 2 = some R ∧
      R.length = ([5, 6, 7] : List Int).length + 1 ∧
      R[2]? = some 9 ∧
      (∀ i, i < 2 → R[i]? = ([5, 6, 7] : List Int)[i]?) ∧
      (∀ i, 2 ≤ i → i < ([5, 6, 7] : List Int).length →
        R[i + 1]? = ([5, 6, 7] : List Int)[i]?) ∧
      (2 = 0 → R = Node.insert_at_head [5, 6, 7] 9) :=
  ⟨by decide, c1_insert_at_index_correct [5, 6, 7] 9 2 (by decide)⟩

/-- Claim C2: `insert_at_index L v k` panics with "Index out of bounds"
exactly when `k > length L` (in particular on the empty list for every
`k ≠ 0`), and `delete_at_index L k` on a non-empty `L` panics exactly when
`k ≥ length L`.  A panic is modelled as `none`: no list at all is produced,
so no partially restructured list is observable. -/
theorem c2_index_out_of_bounds (L : List Int) (v : Int) (k : Nat) :
    (Node.insert_at_index L v k = none ↔ L.length < k) ∧
    (L ≠ [] → (Node.delete_at_index L k = none ↔ L.length ≤ k)) := by
  constructor
  · constructor
    · intro h
      by_contra hk
      push_neg at hk
      rw [insert_at_index_le L v k hk] at h
      simp at h
    · exact insert_at_index_gt L v k
  · intro hL
    constructor
    · intro h
      by_contra hk
      push_neg at hk
      rcases Nat.eq_zero_or_pos k with h0 | h0
      · subst h0
        rw [delete_at_index_zero L] at h
        simp at h
      · rw [delete_at_index_lt L k h0 hk] at h
        simp at h
    · exact delete_at_index_ge L k hL

theorem c2_witness :
    Node.insert_at_index ([1] : List Int) 5 3 = none ∧
    Node.delete_at_index ([1] : List Int) 3 = none :=
  ⟨(c2_index_out_of_bounds [1] 5 3).1.mpr (by decide),
   ((c2_index_out_of_bounds [1] 5 3).2 (by decide)).mpr (by decide)⟩

/-- Claim C3: for every non-empty `L` and `0 < k < length L`,
`delete_at_index L k` succeeds silently with a list of length `length L - 1`
equal to `L` with exactly the element at position `k` removed, and
`delete_at_index L 0` equals `delete_at_head L`. -/
theorem c3_delete_at_index_correct (L : List Int) (k : Nat)
    (hL : L ≠ []) (h0 : 0 < k) (hk : k < L.length) :
    (∃ R, Node.delete_at_index L k = some (R, []) ∧
      R.length = L.length - 1 ∧
      (∀ i, i < k → R[i]? = L[i]?) ∧
      (∀ i, k ≤ i → i + 1 < L.length → R[i]? = L[i + 1]?)) ∧
    Node.delete_at_index L 0 = some (Node.delete_at_head L) := by
  have hkle : k ≤ L.length := Nat.le_of_lt hk
  have h1 : (L.take k).length = k := by simp [Nat.min_eq_left hkle]
  refine ⟨⟨L.take k ++ L.drop (k + 1), delete_at_index_lt L k h0 hk,
    ?_, ?_, ?_⟩, delete_at_index_zero L⟩
  · rw [List.length_append, h1, List.length_drop]
    omega
  · intro i hi
    rw [List.getElem?_append_left (by simpa [h1] using hi)]
    exact List.getElem?_take_of_lt hi
  · intro i hki hi
    rw [List.getElem?_append_right (by simpa [h1] using hki), h1,
      List.getElem?_drop]
    congr 1
    omega

theorem c3_witness :
    (([1, 2, 3] : List Int) ≠ [] ∧ 0 < 1 ∧ 1 < ([1, 2, 3] : List Int).length) ∧
    (∃ R, Node.delete_at_index [1, 2, 3] 1 = some (R, []) ∧
      R.length = ([1, 2, 3] : List Int).length - 1 ∧
      (∀ i, i < 1 → R[i]? = ([1, 2, 3] : List Int)[i]?) ∧
      (∀ i, 1 ≤ i → i + 1 < ([1, 2, 3] : List Int).length →
        R[i]? = ([1, 2, 3] : List Int)[i + 1]?)) ∧
    Node.delete_at_index [1, 2, 3] 0 = some (Node.delete_at_head [1, 2, 3]) :=
  ⟨⟨by decide, by decide, by decide⟩,
   c3_delete_at_index_correct [1, 2, 3] 1 (by decide) (by decide) (by decide)⟩

/-- Claim C4: `get L i` returns the node at 0-based position `i` (its payload
is the `i`-th element of `L`) when `i < length L`, and the absence result
when `i ≥ length L`; in this pure embedding `get` returns nothing but the
borrowed node, so the list itself is untouched. -/
theorem c4_get_correct (L : List Int) (i : Nat) :
    (i < L.length → ∃ node, Node.get L i = some node ∧
      node.head? = L[i]? ∧ node = L.drop i) ∧
    (L.length ≤ i → Node.get L i = none) := by
  constructor
  · intro h
    refine ⟨L.drop i, ?_, ?_, rfl⟩
    · rw [get_eq L i, if_pos h]
    · exact List.head?_drop L i
  · intro h
    rw [get_eq L i, if_neg (Nat.not_lt.mpr h)]

theorem c4_witness :
    ∃ node, Node.get ([4, 5] : List Int) 1 = some node ∧
      node.head? = ([4, 5] : List Int)[1]? ∧
      node = ([4, 5] : List Int).drop 1 :=
  (c4_get_correct [4, 5] 1).1 (by decide)

/-- Claim C5: `reverse` is an involution (`reverse (reverse L) = L`
element-wise, order included) and `reverse L` holds exactly the elements of
`L` in fully inverted order. -/
theorem c5_reverse_involution (L : List Int) :
    Node.reverse (Node.reverse L) = L ∧ Node.reverse L = L.reverse := by
  simp [reverse_eq]

/-- Claim C6: `insert_at_tail L v` has length `length L + 1`, ends in `v`,
and starts with the `length L` elements of `L`; `delete_at_tail` applied to
it gives back exactly `L` (silently). -/
theorem c6_tail_roundtrip (L : List Int) (v : Int) :
    (Node.insert_at_tail L v).length = L.length + 1 ∧
    (Node.insert_at_tail L v).getLast? = some v ∧
    (Node.insert_at_tail L v).take L.length = L ∧
    Node.delete_at_tail (Node.insert_at_tail L v) = (L, []) := by
  rw [insert_at_tail_eq]
  exact ⟨by simp, List.getLast?_concat L, List.take_left L [v],
    delete_at_tail_append L v⟩

/-- Claim C7: each delete operation on the empty list returns the empty
handle together with the `"List is empty"` diagnostic and never panics; for
`delete_at_index` this holds for every index argument. -/
theorem c7_delete_empty_reported_noop :
    Node.delete_at_head [] = ([], ["List is empty"]) ∧
    Node.delete_at_tail [] = ([], ["List is empty"]) ∧
    ∀ k : Nat, Node.delete_at_index [] k = some ([], ["List is empty"]) :=
  ⟨rfl, rfl, fun _ => rfl⟩

/-- Claim C8: `traverse_apply` visits every payload exactly once in
head-to-tail order with a (possibly stateful) visitor: the result has the
same length (same topology), its final visitor state is the fold of the
visitor over all payloads, and the payload at each position `i` is the
visitor's output on the old payload under the state accumulated over the
first `i` payloads. -/
theorem c8_traverse_apply_spec {σ : Type} (func : σ → Int → Int × σ)
    (L : List Int) (s : σ) :
    (Node.traverse_apply func L s).1.length = L.length ∧
    (Node.traverse_apply func L s).2 = applyState func s L ∧
    ∀ i : Nat, i < L.length →
      ((Node.traverse_apply func L s).1)[i]? =
        (L[i]?).map (fun d => (func (applyState func s (L.take i)) d).1) :=
  traverse_apply_parts func L s

theorem c8_witness :
    ((Node.traverse_apply (fun (t d : Int) => (d + t, t + 1)) [3, 4]
      (0 : Int)).1)[1]? = some 5 := by
  have h := (c8_traverse_apply_spec (fun (t d : Int) => (d + t, t + 1))
    [3, 4] (0 : Int)).2.2 1 (by decide)
  rw [h]
  decide

/-- Claim C9: `print_list L` writes exactly
`HEAD -> d0 -> d1 -> ... -> NONE` (the elements left-to-right separated by
`" -> "`, terminated by `" -> NONE"`), and on the empty list exactly
`HEAD ->  -> NONE` with the double space; in this pure embedding it only
produces text, leaving the list untouched. -/
theorem c9_print_list_format (L : List Int) :
    Node.print_list L = "HEAD -> " ++ specRender L ++ " -> NONE" ∧
    Node.print_list [] = "HEAD ->  -> NONE" := by
  refine ⟨?_, by decide⟩
  unfold Node.print_list
  rw [printNodes_eq]

/-- Claim C10: inserting at the one-past-the-end index `length L` is
extensionally the same as `insert_at_tail`, on every list including the
empty one. -/
theorem c10_insert_at_length_matches_tail (L : List Int) (v : Int) :
    Node.insert_at_index L v L.length = some (Node.insert_at_tail L v) := by
  rw [insert_at_index_le L v L.length le_rfl, insert_at_tail_eq]
  simp
